import Mathlib

/-!
Verification of the object store, pack/delta decoder, tree serializer and
checkout renderer of a minimal git re-implementation (src/main.py).

Bytes are modelled as natural numbers (Python guarantees 0-255 for elements
of a bytes object; the operations below only ever mask or compare, so no
modular arithmetic is needed).  Byte strings are List Nat.  The loose-object
store is modelled as a map from the 40-hex-character OID to the stored file
bytes: the on-disk path .git/objects/oid[:2]/oid[2:] is in bijection with
the OID, so keying by the OID is faithful.

SHA-1 and zlib are external primitives (hashlib / zlib): they enter the
model as function parameters.  zlib compression keeps its level argument
(an Int: Z_BEST_SPEED = 1, and -1 for the Python default when the argument
is omitted), because the source passes different levels at different call
sites.  Theorems that need the zlib round-trip state it as a hypothesis.
-/

namespace MyGit

/-- Bytes of an ASCII string; models Python str.encode() (UTF-8), which is
the identity embedding on the ASCII strings used by the program (object
types, decimal lengths, modes). -/
def strBytes (s : String) : List Nat :=
  s.data.map Char.toNat

/-- Models Python bytes.decode() on ASCII byte strings (the only ones the
program decodes from object headers). -/
def bytesDecodeAscii (bs : List Nat) : Option String :=
  if bs.all (· < 128) then some (String.mk (bs.map Char.ofNat)) else none

/-- Models Python b.split(sep, maxsplit=1) followed by unpacking into two
variables: none when the separator is absent (Python raises ValueError). -/
def splitFirst (sep : Nat) : List Nat → Option (List Nat × List Nat)
  | [] => none
  | b :: rest =>
    if b = sep then some ([], rest)
    else (splitFirst sep rest).map (fun p => (b :: p.1, p.2))

/-- Models Python b.split(sep) with no maxsplit: split at every occurrence
of the separator.  Always returns a non-empty list. -/
def splitAll (sep : Nat) : List Nat → List (List Nat)
  | [] => [[]]
  | b :: rest =>
    if b = sep then [] :: splitAll sep rest
    else
      match splitAll sep rest with
      | h :: t => (b :: h) :: t
      | [] => [[b]]

/-- The loose-object store: 40-hex OID to stored (compressed) file bytes. -/
def Store : Type := String → Option (List Nat)

def updateStore (store : Store) (k : String) (v : List Nat) : Store :=
  fun q => if q = k then some v else store q

/-- The framed object of src/main.py create_object: the bytes of the header
f-string "category len\x00" followed by the payload. -/
def frame (category : String) (data : List Nat) : List Nat :=
  strBytes (category ++ " " ++ Nat.repr data.length ++ "\x00") ++ data

/-- src/main.py create_object: frame the payload, hash, write the
zlib-compressed framed bytes (level Z_BEST_SPEED = 1) at the OID path,
unconditionally.  Returns the hex OID and the updated store. -/
def create_object (sha1Hex : List Nat → String) (compress : Int → List Nat → List Nat)
    (category : String) (data : List Nat) (store : Store) : String × Store :=
  (sha1Hex (frame category data),
    updateStore store (sha1Hex (frame category data))
      (compress 1 (frame category data)))

/-- src/main.py read_object: read the file at the OID path (none models
FileNotFoundError), inflate, split at the first NUL (none models the
ValueError when no NUL is present), split the header on every space and
unpack into exactly two parts (none otherwise), decode the first part and
return it with the payload.  The declared length is never compared with the
payload length. -/
def read_object (decompress : List Nat → List Nat) (sha : String) (store : Store) :
    Option (String × List Nat) :=
  match store sha with
  | none => none
  | some bs =>
    match splitFirst 0 (decompress bs) with
    | none => none
    | some (head, content) =>
      match splitAll 32 head with
      | [tip, _] => (bytesDecodeAscii tip).map (fun t => (t, content))
      | _ => none

/-! ### Helper lemmas: decimal digits and byte-string splitting -/

theorem digitChar_range {m : Nat} (h : m < 10) :
    48 ≤ (Nat.digitChar m).toNat ∧ (Nat.digitChar m).toNat ≤ 57 := by
  interval_cases m <;> decide

theorem toDigitsCore_range (fuel n : Nat) (ds : List Char)
    (hds : ∀ c ∈ ds, 48 ≤ c.toNat ∧ c.toNat ≤ 57) :
    ∀ c ∈ Nat.toDigitsCore 10 fuel n ds, 48 ≤ c.toNat ∧ c.toNat ≤ 57 := by
  induction fuel generalizing n ds with
  | zero => simpa [Nat.toDigitsCore] using hds
  | succ fuel ih =>
    simp only [Nat.toDigitsCore]
    split
    · intro c hc
      rcases List.mem_cons.1 hc with rfl | hc
      · exact digitChar_range (Nat.mod_lt _ (by norm_num))
      · exact hds c hc
    · refine ih (n / 10) _ ?_
      intro c hc
      rcases List.mem_cons.1 hc with rfl | hc
      · exact digitChar_range (Nat.mod_lt _ (by norm_num))
      · exact hds c hc

theorem repr_digit_range (n : Nat) :
    ∀ b ∈ strBytes (Nat.repr n), 48 ≤ b ∧ b ≤ 57 := by
  intro b hb
  simp only [strBytes, Nat.repr, List.asString, List.mem_map] at hb
  obtain ⟨c, hc, rfl⟩ := hb
  exact toDigitsCore_range (n + 1) n [] (by simp) c hc

theorem splitFirst_append {sep : Nat} {h : List Nat} (t : List Nat)
    (hh : sep ∉ h) : splitFirst sep (h ++ sep :: t) = some (h, t) := by
  induction h with
  | nil => simp [splitFirst]
  | cons b h ih =>
    have hb : b ≠ sep := fun e => hh (by simp [e])
    have ih' := ih (fun m => hh (List.mem_cons_of_mem _ m))
    simp [splitFirst, if_neg hb, ih']

theorem splitAll_ne_nil (sep : Nat) (bs : List Nat) : splitAll sep bs ≠ [] := by
  cases bs with
  | nil => simp [splitAll]
  | cons b rest =>
    simp only [splitAll]
    split
    · simp
    · split <;> simp_all

theorem splitAll_no_sep {sep : Nat} {a : List Nat} (ha : sep ∉ a) :
    splitAll sep a = [a] := by
  induction a with
  | nil => rfl
  | cons b rest ih =>
    have hb : b ≠ sep := fun e => ha (by simp [e])
    have hr : splitAll sep rest = [rest] :=
      ih (fun m => ha (List.mem_cons_of_mem _ m))
    simp [splitAll, if_neg hb, hr]

theorem splitAll_append {sep : Nat} {a : List Nat} (b : List Nat)
    (ha : sep ∉ a) (hb : sep ∉ b) : splitAll sep (a ++ sep :: b) = [a, b] := by
  induction a with
  | nil => simp [splitAll, splitAll_no_sep hb]
  | cons x rest ih =>
    have hx : x ≠ sep := fun e => ha (by simp [e])
    have hr : splitAll sep (rest ++ sep :: b) = [rest, b] :=
      ih (fun m => ha (List.mem_cons_of_mem _ m))
    simp [splitAll, if_neg hx, hr]

theorem strBytes_append (s t : String) :
    strBytes (s ++ t) = strBytes s ++ strBytes t := by
  simp [strBytes, String.data_append]

theorem updateStore_self (store : Store) (k : String) (v : List Nat) :
    updateStore store k v k = some v := by
  simp [updateStore]

theorem frame_eq (category : String) (data : List Nat) :
    frame category data =
      (strBytes category ++ 32 :: strBytes (Nat.repr data.length)) ++ 0 :: data := by
  rw [frame, strBytes_append, strBytes_append, strBytes_append]
  have h32 : strBytes " " = [32] := by decide
  have h0 : strBytes "\x00" = [0] := by decide
  rw [h32, h0]
  simp

/-! ### C1: get-put round trip -/

/-- C1: for every valid object type (blob, tree, commit, tag) and every byte
payload, storing with create_object and reading the returned OID back with
read_object yields exactly the original (type, payload) pair, for any zlib
implementation satisfying the inflate-deflate round trip. -/
theorem read_object_create_object (sha1Hex : List Nat → String)
    (compress : Int → List Nat → List Nat) (decompress : List Nat → List Nat)
    (hzlib : ∀ x, decompress (compress 1 x) = x)
    (category : String)
    (hcat : category = "blob" ∨ category = "tree" ∨ category = "commit" ∨
      category = "tag")
    (data : List Nat) (store : Store) :
    read_object decompress (create_object sha1Hex compress category data store).1
      (create_object sha1Hex compress category data store).2 =
      some (category, data) := by
  have hdig := repr_digit_range data.length
  have hz : (0 : Nat) ∉ strBytes category ++ 32 :: strBytes (Nat.repr data.length) := by
    intro hmem
    rcases List.mem_append.1 hmem with hmem | hmem
    · rcases hcat with rfl | rfl | rfl | rfl <;> revert hmem <;> decide
    · rcases List.mem_cons.1 hmem with h | h
      · omega
      · have := hdig 0 h; omega
  have hsp_cat : (32 : Nat) ∉ strBytes category := by
    rcases hcat with rfl | rfl | rfl | rfl <;> decide
  have hsp_dig : (32 : Nat) ∉ strBytes (Nat.repr data.length) := by
    intro h; have := hdig 32 h; omega
  have hdec : bytesDecodeAscii (strBytes category) = some category := by
    rcases hcat with rfl | rfl | rfl | rfl <;> decide
  simp only [create_object, read_object, updateStore_self, hzlib, frame_eq,
    splitFirst_append _ hz, splitAll_append _ hsp_cat hsp_dig, hdec]
  rfl

/-- Witness for C1 at a concrete instance: the identity codec, a constant
hash, type blob, payload [104, 105]. -/
theorem read_object_create_object_witness :
    read_object id
      (create_object (fun _ => "aa") (fun _ x => x) "blob" [104, 105]
        (fun _ => none)).1
      (create_object (fun _ => "aa") (fun _ x => x) "blob" [104, 105]
        (fun _ => none)).2 = some ("blob", [104, 105]) :=
  read_object_create_object (fun _ => "aa") (fun _ x => x) id (fun _ => rfl)
    "blob" (Or.inl rfl) [104, 105] (fun _ => none)

/-! ### C4: read_object failure modes -/

/-- C4 counterexample: a stored object whose header declares length 5 while
the payload has 2 bytes is read back successfully, payload and all; the
claimed CorruptObject failure on a length mismatch does not happen (the
code never compares the declared length with the payload). -/
theorem read_object_length_mismatch_returns_payload :
    read_object id "aa"
      (fun k => if k = "aa" then some (strBytes "blob 5" ++ 0 :: [104, 105])
        else none) = some ("blob", [104, 105]) := by
  decide

/-- C4 amended: read_object fails when the file is absent, when the inflated
bytes contain no NUL, and when the part before the first NUL does not split
on spaces into exactly two pieces (whether it has no space at all or two or
more spaces); but the declared length is ignored: for any header
"tip SP decl", the payload is returned unchanged, with no constraint tying
decl to the payload length. -/
theorem read_object_failure_modes (decompress : List Nat → List Nat) :
    (∀ sha (store : Store), store sha = none →
      read_object decompress sha store = none) ∧
    (∀ sha (store : Store) bs, store sha = some bs →
      (0 : Nat) ∉ decompress bs → read_object decompress sha store = none) ∧
    (∀ sha (store : Store) bs head content, store sha = some bs →
      decompress bs = head ++ 0 :: content → (0 : Nat) ∉ head →
      (splitAll 32 head).length ≠ 2 → read_object decompress sha store = none) ∧
    (∀ sha (store : Store) bs tip decl content, store sha = some bs →
      decompress bs = (tip ++ 32 :: decl) ++ 0 :: content →
      (0 : Nat) ∉ tip ++ 32 :: decl → (32 : Nat) ∉ tip → (32 : Nat) ∉ decl →
      tip.all (· < 128) = true →
      read_object decompress sha store =
        some (String.mk (tip.map Char.ofNat), content)) := by
  refine ⟨?_, ?_, ?_, ?_⟩
  · intro sha store h
    simp [read_object, h]
  · intro sha store bs h hnonul
    have hsf : splitFirst 0 (decompress bs) = none := by
      generalize decompress bs = l at hnonul ⊢
      induction l with
      | nil => rfl
      | cons b rest ih =>
        have hb : b ≠ 0 := fun e => hnonul (by simp [e])
        have ih' := ih (fun m => hnonul (List.mem_cons_of_mem _ m))
        simp [splitFirst, if_neg hb, ih']
    simp [read_object, h, hsf]
  · intro sha store bs head content h hdec hnonul hl
    have hsf : splitFirst 0 (decompress bs) = some (head, content) := by
      rw [hdec]; exact splitFirst_append _ hnonul
    cases hsa : splitAll 32 head with
    | nil => simp [read_object, h, hsf, hsa]
    | cons a l1 =>
      cases l1 with
      | nil => simp [read_object, h, hsf, hsa]
      | cons b l2 =>
        cases l2 with
        | nil => exact absurd (by rw [hsa]; rfl) hl
        | cons c l3 => simp [read_object, h, hsf, hsa]
  · intro sha store bs tip decl content h hdec hnonul htip hdecl hascii
    have hsf : splitFirst 0 (decompress bs) = some (tip ++ 32 :: decl, content) := by
      rw [hdec]; exact splitFirst_append _ hnonul
    have h128 : ∀ x ∈ tip, x < 128 := by simpa using hascii
    simp [read_object, h, hsf, splitAll_append _ htip hdecl, bytesDecodeAscii]
    exact h128

/-- Witness for C4's amended theorem: absent OID fails; a header with two
spaces (three pieces, "blob 5 x") fails; a header declaring length 5 over a
2-byte payload succeeds with the mismatched payload. -/
theorem read_object_failure_modes_witness :
    read_object id "aa" (fun _ => none) = none ∧
    read_object id "cc"
      (fun k => if k = "cc"
        then some ([98, 108, 111, 98, 32, 53, 32, 120] ++ 0 :: [1])
        else none) = none ∧
    read_object id "bb"
      (fun k => if k = "bb" then some ([98, 108, 111, 98] ++ 32 :: [53] ++ 0 :: [104, 105])
        else none) = some ("blob", [104, 105]) := by
  refine ⟨?_, ?_, ?_⟩
  · exact (read_object_failure_modes id).1 "aa" (fun _ => none) rfl
  · exact (read_object_failure_modes id).2.2.1 "cc" _ _
      [98, 108, 111, 98, 32, 53, 32, 120] [1] rfl rfl (by decide) (by decide)
  · exact (read_object_failure_modes id).2.2.2 "bb" _ _ [98, 108, 111, 98] [53]
      [104, 105] rfl (by decide) (by decide) (by decide) (by decide) (by decide)

/-! ### C8: create_object writes unconditionally -/

/-- C8 counterexample: the object file for the OID already exists (holding
bytes [99]), yet create_object overwrites it with the freshly compressed
framed bytes: the stored bytes change, so the write is not a no-op.  (The
code has no existence check: it calls write_bytes unconditionally; a file
written earlier at a different zlib level is replaced, not kept.) -/
theorem create_object_overwrites_existing :
    (fun k => if k = "s" then some [99] else none) "s" ≠ none ∧
    (create_object (fun _ => "s") (fun _ x => x) "blob" []
        (fun k => if k = "s" then some [99] else none)).2 "s" ≠
      (fun k => if k = "s" then some [99] else none) "s" := by
  constructor
  · decide
  · intro h
    have : some (frame "blob" []) = some [99] := by
      simpa [create_object, updateStore] using h
    have hfr : frame "blob" [] = [98, 108, 111, 98, 32, 48, 0] := by decide
    rw [hfr] at this
    simp at this

/-- C8 amended: create_object writes unconditionally, but it is idempotent
at the level of observable store state: storing the same (type, payload)
twice returns the same OID and leaves the store pointwise identical to the
store after the first put, because the rewritten bytes are deterministic. -/
theorem create_object_idempotent (sha1Hex : List Nat → String)
    (compress : Int → List Nat → List Nat) (category : String)
    (data : List Nat) (store : Store) :
    (create_object sha1Hex compress category data
        (create_object sha1Hex compress category data store).2).1 =
      (create_object sha1Hex compress category data store).1 ∧
    ∀ k, (create_object sha1Hex compress category data
        (create_object sha1Hex compress category data store).2).2 k =
      (create_object sha1Hex compress category data store).2 k := by
  refine ⟨rfl, fun k => ?_⟩
  simp only [create_object, updateStore]
  split <;> rfl

/-! ### Pack varint decoders (src/main.py next_size_and_type, next_size) -/

/-- The type table of next_size_and_type's match on bits 6..4. -/
def typeOfCode (code : Nat) : String :=
  match code with
  | 1 => "commit"
  | 2 => "tree"
  | 3 => "blob"
  | 4 => "tag"
  | 6 => "ofs_delta"
  | 7 => "ref_delta"
  | _ => "unknown"

/-- The shared while loop of next_size_and_type and next_size: while the
previous byte's MSB is set, add the next byte's low 7 bits shifted by off,
advancing off by 7.  none models the IndexError when the bytes run out. -/
def varintLoop (prev : Nat) (bs : List Nat) (size off : Nat) :
    Option (Nat × List Nat) :=
  if prev &&& 128 ≠ 0 then
    match bs with
    | [] => none
    | b :: rest => varintLoop b rest (size + ((b &&& 127) <<< off)) (off + 7)
  else some (size, bs)

/-- src/main.py next_size_and_type: type from bits 6..4 of the first byte,
size seeded with its low 4 bits, continuation bytes shifted by 4, 11, 18, …;
returns the type name, the size and the unread tail. -/
def next_size_and_type (bs : List Nat) : Option (String × Nat × List Nat) :=
  match bs with
  | [] => none
  | b :: rest =>
    (varintLoop b rest (b &&& 15) 4).map
      (fun p => (typeOfCode ((b &&& 112) >>> 4), p.1, p.2))

/-- src/main.py next_size: size seeded with the low 7 bits of the first
byte, continuation bytes shifted by 7, 14, …; returns size and unread tail. -/
def next_size (bs : List Nat) : Option (Nat × List Nat) :=
  match bs with
  | [] => none
  | b :: rest => varintLoop b rest (b &&& 127) 7

/-- Little-endian 7-bit-group value of a list of continuation bytes,
starting at shift off and advancing by 7 per byte. -/
def contrib : List Nat → Nat → Nat
  | [], _ => 0
  | c :: r, off => ((c &&& 127) <<< off) + contrib r (off + 7)

/-- A well-formed varint byte chain: every byte except the last has its MSB
set, and the last has it clear. -/
def chainWF : List Nat → Bool
  | [] => false
  | [b] => decide (b &&& 128 = 0)
  | b :: c :: rest => (decide (b &&& 128 ≠ 0)) && chainWF (c :: rest)

theorem varintLoop_spec (cs : List Nat) : ∀ (b : Nat) (tail : List Nat)
    (size off : Nat), chainWF (b :: cs) = true →
    varintLoop b (cs ++ tail) size off = some (size + contrib cs off, tail) := by
  induction cs with
  | nil =>
    intro b tail size off h
    have hb : b &&& 128 = 0 := by simpa [chainWF] using h
    rw [varintLoop.eq_def]
    simp [hb, contrib]
  | cons c cs ih =>
    intro b tail size off h
    have hb : b &&& 128 ≠ 0 ∧ chainWF (c :: cs) = true := by
      simpa [chainWF] using h
    rw [varintLoop.eq_def]
    simp only [List.cons_append, if_pos hb.1]
    rw [ih c tail _ _ hb.2, contrib]
    simp [Nat.add_assoc]

/-! ### C7: the two distinct varint decoders -/

/-- C7: on any byte string beginning with a well-formed varint chain, the
entry-header decoder next_size_and_type reads the type from bits 6..4 of the
first byte, seeds the size with its low 4 bits and adds the low 7 bits of
each continuation byte at shifts 4, 11, 18, …, while the delta-size decoder
next_size seeds the size with the low 7 bits of the first byte and shifts
continuations by 7, 14, …; each returns the decoded value together with
exactly the unread tail. -/
theorem varint_decoders (b : Nat) (cs tail : List Nat)
    (h : chainWF (b :: cs) = true) :
    next_size (b :: (cs ++ tail)) = some ((b &&& 127) + contrib cs 7, tail) ∧
    next_size_and_type (b :: (cs ++ tail)) =
      some (typeOfCode ((b &&& 112) >>> 4), (b &&& 15) + contrib cs 4, tail) := by
  constructor
  · rw [next_size, varintLoop_spec cs b tail _ _ h]
  · rw [next_size_and_type, varintLoop_spec cs b tail _ _ h]
    rfl

/-- Witness for C7 on the concrete chain [0x95, 0x03] with tail [7]:
next_size decodes 21 + (3 shifted by 7) = 405, next_size_and_type decodes
type commit (code 1) and size 5 + (3 shifted by 4) = 53, both returning
tail [7]. -/
theorem varint_decoders_witness :
    next_size [149, 3, 7] = some (405, [7]) ∧
    next_size_and_type [149, 3, 7] = some ("commit", 53, [7]) :=
  ⟨((varint_decoders 149 [3] [7] (by decide)).1).trans (by decide),
   ((varint_decoders 149 [3] [7] (by decide)).2).trans (by decide)⟩

/-! ### Ref-delta application (src/main.py clone, ref_delta case) -/

/-- The two byte-gathering for-loops of the copy branch: for each (bit,
shiftMul) pair in order, if the instruction byte has that bit set, consume
one byte and or it in shifted by shiftMul * 8.  none models the IndexError
when the bytes run out. -/
def readFlagged (first : Nat) : List (Nat × Nat) → List Nat → Nat →
    Option (Nat × List Nat)
  | [], bs, acc => some (acc, bs)
  | (bit, sh) :: fs, bs, acc =>
    if first &&& (1 <<< bit) ≠ 0 then
      match bs with
      | [] => none
      | b :: rest => readFlagged first fs rest (acc ||| (b <<< (sh * 8)))
    else readFlagged first fs bs acc

/-- Offset gathering: for i in range(0, 4), bit i, shift i * 8. -/
def offsetFlags : List (Nat × Nat) := [(0, 0), (1, 1), (2, 2), (3, 3)]

/-- Size gathering: for i in range(0, 3), bit 4 + i, shift i * 8. -/
def sizeFlags : List (Nat × Nat) := [(4, 0), (5, 1), (6, 2)]

theorem readFlagged_length (first : Nat) (fs : List (Nat × Nat)) :
    ∀ (bs : List Nat) (acc v : Nat) (bs' : List Nat),
      readFlagged first fs bs acc = some (v, bs') → bs'.length ≤ bs.length := by
  induction fs with
  | nil =>
    intro bs acc v bs' h
    obtain ⟨rfl, rfl⟩ : acc = v ∧ bs = bs' := by
      simpa [readFlagged] using h
    exact le_rfl
  | cons f fs ih =>
    intro bs acc v bs' h
    obtain ⟨bit, sh⟩ := f
    rw [readFlagged.eq_def] at h
    dsimp only at h
    split at h
    · match bs, h with
      | b :: rest, h => exact (ih rest _ v bs' h).trans (by simp)
    · exact ih bs _ v bs' h

/-- The while loop over the delta instruction stream (src/main.py lines
241-261), as a recursion on an iteration bound: every iteration consumes at
least one input byte, so the input length bounds the iteration count and
the 0-fuel branch is unreachable from delta_loop below (deltaGo_fuel).
A copy instruction (MSB set) gathers offset and size bytes as directed by
the instruction's low bits and emits base[offset : offset + size] with
Python slice truncation; an insert instruction (MSB clear, value n) emits
the next n bytes verbatim (truncated if fewer remain). -/
def deltaGo (base : List Nat) : Nat → List Nat → List Nat → Option (List Nat)
  | _, [], target => some target
  | 0, _ :: _, _ => none
  | fuel + 1, c0 :: rest, target =>
    if c0 &&& 128 ≠ 0 then
      match readFlagged c0 offsetFlags rest 0 with
      | none => none
      | some (offset, bs1) =>
        match readFlagged c0 sizeFlags bs1 0 with
        | none => none
        | some (size, bs2) =>
          deltaGo base fuel bs2 (target ++ (base.drop offset).take size)
    else
      deltaGo base fuel (rest.drop c0) (target ++ rest.take c0)

/-- The delta instruction loop entered with the full instruction stream. -/
def delta_loop (base content target : List Nat) : Option (List Nat) :=
  deltaGo base content.length content target

/-- The iteration bound is irrelevant as long as it is at least the input
length: deltaGo with any sufficient fuel equals delta_loop. -/
theorem deltaGo_fuel (base : List Nat) :
    ∀ (fuel : Nat) (content target : List Nat), content.length ≤ fuel →
      deltaGo base fuel content target = delta_loop base content target := by
  intro fuel
  induction fuel using Nat.strong_induction_on with
  | _ fuel ih =>
    intro content target hle
    cases content with
    | nil => cases fuel <;> rfl
    | cons c0 rest =>
      cases fuel with
      | zero => simp at hle
      | succ fuel =>
        have hrest : rest.length ≤ fuel := by
          rw [List.length_cons] at hle; omega
        rw [delta_loop, List.length_cons]
        simp only [deltaGo]
        by_cases hc : c0 &&& 128 ≠ 0
        · simp only [if_pos hc]
          cases h1 : readFlagged c0 offsetFlags rest 0 with
          | none => rfl
          | some p1 =>
            obtain ⟨offset, bs1⟩ := p1
            dsimp only
            cases h2 : readFlagged c0 sizeFlags bs1 0 with
            | none => rfl
            | some p2 =>
              obtain ⟨size, bs2⟩ := p2
              dsimp only
              have l1 := readFlagged_length c0 offsetFlags rest 0 offset bs1 h1
              have l2 := readFlagged_length c0 sizeFlags bs1 0 size bs2 h2
              rw [ih fuel (Nat.lt_succ_self _) bs2 _ (le_trans l2 (le_trans l1 hrest)),
                ih rest.length (by omega) bs2 _ (le_trans l2 l1)]
        · simp only [if_neg hc]
          have hd : (rest.drop c0).length ≤ rest.length := by
            simp
          rw [ih fuel (Nat.lt_succ_self _) _ _ (le_trans hd hrest),
            ih rest.length (by omega) _ _ hd]

/-- One step of the loop on an insert instruction. -/
theorem delta_loop_insert (base : List Nat) (c0 : Nat) (rest target : List Nat)
    (h : c0 &&& 128 = 0) :
    delta_loop base (c0 :: rest) target =
      delta_loop base (rest.drop c0) (target ++ rest.take c0) := by
  rw [delta_loop, List.length_cons]
  simp only [deltaGo, if_neg (by simp [h] : ¬c0 &&& 128 ≠ 0)]
  exact deltaGo_fuel base rest.length _ _ (by simp)

/-- One step of the loop on a copy instruction. -/
theorem delta_loop_copy (base : List Nat) (c0 : Nat) (rest target : List Nat)
    (hcopy : c0 &&& 128 ≠ 0) (offset size : Nat) (bs1 bs2 : List Nat)
    (h1 : readFlagged c0 offsetFlags rest 0 = some (offset, bs1))
    (h2 : readFlagged c0 sizeFlags bs1 0 = some (size, bs2)) :
    delta_loop base (c0 :: rest) target =
      delta_loop base bs2 (target ++ (base.drop offset).take size) := by
  rw [delta_loop, List.length_cons]
  simp only [deltaGo, if_pos hcopy, h1, h2]
  have l1 := readFlagged_length c0 offsetFlags rest 0 offset bs1 h1
  have l2 := readFlagged_length c0 sizeFlags bs1 0 size bs2 h2
  exact deltaGo_fuel base rest.length _ _ (le_trans l2 l1)

/-- src/main.py ref_delta case after inflation: skip the base-size and
result-size varints, then run the instruction loop on an empty target. -/
def ref_delta_reconstruct (base_content delta : List Nat) : Option (List Nat) :=
  match next_size delta with
  | none => none
  | some p1 =>
    match next_size p1.2 with
    | none => none
    | some p2 => delta_loop base_content p2.2 []

/-- src/main.py ref_delta case, end to end on a located base: reconstruct
the target and hand it to create_object under the base object's type. -/
def ref_delta_entry (sha1Hex : List Nat → String)
    (compress : Int → List Nat → List Nat) (base_tip : String)
    (base_content delta : List Nat) (store : Store) : Option (String × Store) :=
  (ref_delta_reconstruct base_content delta).map
    (fun target => create_object sha1Hex compress base_tip target store)

/-! ### C2: ref-delta reconstruction -/

/-- C2: a resolved ref-delta entry is written to the store under the base
object's type, at the OID obtained by hashing its framed form, holding the
compressed framed form; and on base blob "The quick brown fox" the program
[copy offset=0 size=9][insert "lazy "][copy offset=10 size=9] reconstructs
"The quicklazy brown fox". -/
theorem ref_delta_stores_base_type (sha1Hex : List Nat → String)
    (compress : Int → List Nat → List Nat) (base_tip : String)
    (base_content delta : List Nat) (store : Store) (target : List Nat)
    (h : ref_delta_reconstruct base_content delta = some target) :
    ref_delta_entry sha1Hex compress base_tip base_content delta store =
      some (sha1Hex (frame base_tip target),
        updateStore store (sha1Hex (frame base_tip target))
          (compress 1 (frame base_tip target))) ∧
    delta_loop (strBytes "The quick brown fox")
      [144, 9, 5, 108, 97, 122, 121, 32, 145, 10, 9] [] =
      some (strBytes "The quicklazy brown fox") := by
  constructor
  · rw [ref_delta_entry, h]; rfl
  · decide

/-- Witness for C2 on the concrete pack scenario: base sizes 19/23, then
the copy/insert/copy program; stored under type blob at the hash of the
framed reconstruction. -/
theorem ref_delta_stores_base_type_witness :
    ref_delta_entry (fun _ => "oid") (fun _ x => x) "blob"
        (strBytes "The quick brown fox")
        [19, 23, 144, 9, 5, 108, 97, 122, 121, 32, 145, 10, 9]
        (fun _ => none) =
      some ("oid", updateStore (fun _ => none) "oid"
        (frame "blob" (strBytes "The quicklazy brown fox"))) ∧
    delta_loop (strBytes "The quick brown fox")
      [144, 9, 5, 108, 97, 122, 121, 32, 145, 10, 9] [] =
      some (strBytes "The quicklazy brown fox") :=
  ref_delta_stores_base_type (fun _ => "oid") (fun _ x => x) "blob"
    (strBytes "The quick brown fox")
    [19, 23, 144, 9, 5, 108, 97, 122, 121, 32, 145, 10, 9]
    (fun _ => none) (strBytes "The quicklazy brown fox") (by decide)

/-! ### C5: copy instruction with encoded size zero -/

/-- C5: a copy instruction with no size bytes (encoded size zero, byte
0x80) makes the code emit base[offset : offset + 0], i.e. nothing — not
the 0x10000 bytes the delta format prescribes for a zero size: against the
19-byte base the reconstruction is empty instead of base[0 : 0x10000]. -/
theorem delta_copy_size_zero_emits_nothing :
    delta_loop (strBytes "The quick brown fox") [128] [] = some [] ∧
    delta_loop (strBytes "The quick brown fox") [128] [] ≠
      some (((strBytes "The quick brown fox").drop 0).take 65536) := by
  decide

/-! ### C6: copy instruction beyond the base length -/

/-- C6 counterexample: a copy of size 5 against a 3-byte base succeeds with
the silently truncated copy [1, 2, 3]; no DeltaOverflow failure exists in
the code. -/
theorem delta_copy_overflow_no_error :
    delta_loop [1, 2, 3] [144, 5] [] = some [1, 2, 3] := by decide

/-- C6 amended: a copy instruction whose range [offset, offset + size)
extends beyond the base length does not fail: it emits
(base.drop offset).take size — Python slice truncation — which is strictly
shorter than the requested size, and the loop carries on. -/
theorem delta_copy_overflow_truncates (base : List Nat) (c0 : Nat)
    (rest target : List Nat) (hcopy : c0 &&& 128 ≠ 0)
    (offset size : Nat) (bs1 bs2 : List Nat)
    (h1 : readFlagged c0 offsetFlags rest 0 = some (offset, bs1))
    (h2 : readFlagged c0 sizeFlags bs1 0 = some (size, bs2))
    (hsize : 0 < size) (hover : base.length < offset + size) :
    delta_loop base (c0 :: rest) target =
      delta_loop base bs2 (target ++ (base.drop offset).take size) ∧
    ((base.drop offset).take size).length < size := by
  refine ⟨delta_loop_copy base c0 rest target hcopy offset size bs1 bs2 h1 h2, ?_⟩
  simp only [List.length_take, List.length_drop]
  omega

/-- Witness for C6's amended theorem: copy offset=0 size=5 against base
[1, 2, 3] truncates to 3 emitted bytes. -/
theorem delta_copy_overflow_truncates_witness :
    delta_loop [1, 2, 3] [(144 : Nat), 5] [] =
      delta_loop [1, 2, 3] [] ([] ++ (([1, 2, 3].drop 0).take 5)) ∧
    ((([1, 2, 3] : List Nat).drop 0).take 5).length < 5 :=
  delta_copy_overflow_truncates [1, 2, 3] 144 [5] [] (by decide) 0 5 [5] []
    (by decide) (by decide) (by decide) (by decide)

/-! ### Tree serialization (src/main.py write_tree) -/

/-- A captured filesystem subtree: os.path.isfile distinguishes the two
cases; os.listdir yields the children names (code points; ASCII in all
statements below, where str.encode is the identity embedding). -/
inductive FTree
  | file (data : List Nat)
  | dir (children : List (List Nat × FTree))

/-- Python string comparison on code-point sequences (lexicographic). -/
def pyLe : List Nat → List Nat → Bool
  | [], _ => true
  | _ :: _, [] => false
  | x :: xs, y :: ys =>
    if x < y then true else if y < x then false else pyLe xs ys

/-- The sort key of src/main.py write_tree: a file's name, a directory's
name with a trailing slash (47) appended. -/
def sortKey : List Nat × FTree → List Nat
  | (name, FTree.file _) => name
  | (name, FTree.dir _) => name ++ [47]

/-- Python sorted(children, key=sortKey): a stable sort by the key; modelled
with insertion sort, which is stable and agrees with any stable sort by the
same key. -/
def sortChildren (cs : List (List Nat × FTree)) : List (List Nat × FTree) :=
  cs.insertionSort (fun u v => pyLe (sortKey u) (sortKey v) = true)

/-- Value of one hexadecimal digit (int(s, 16) digit semantics). -/
def hexVal (c : Char) : Nat :=
  if 48 ≤ c.toNat ∧ c.toNat ≤ 57 then c.toNat - 48
  else if 97 ≤ c.toNat ∧ c.toNat ≤ 102 then c.toNat - 87
  else if 65 ≤ c.toNat ∧ c.toNat ≤ 70 then c.toNat - 55
  else 0

/-- Models int(s, 16) on hexadecimal strings (the hex OIDs produced by
hexdigest); non-hex digits, on which Python would raise, contribute 0. -/
def hexToNat (s : String) : Nat :=
  s.data.foldl (fun acc c => acc * 16 + hexVal c) 0

/-- Models n.to_bytes(k, byteorder="big"). -/
def natToBytesBE : Nat → Nat → List Nat
  | 0, _ => []
  | k + 1, n => natToBytesBE k (n / 256) ++ [n % 256]

/-- int(sha, 16).to_bytes(20, byteorder="big") of write_tree. -/
def shaBytes20 (sha : String) : List Nat :=
  natToBytesBE 20 (hexToNat sha)

/-- The mode literal chosen per child: 100644 for files, 40000 for trees. -/
def modeOf : FTree → String
  | FTree.file _ => "100644"
  | FTree.dir _ => "40000"

/-- The framed tree object f"tree {len(entries)}\0" + entries. -/
def treeContent (entries : List Nat) : List Nat :=
  strBytes ("tree " ++ Nat.repr entries.length ++ "\x00") ++ entries

/-- The for-loop of write_tree over the sorted children: skip any child
named .git, recurse via the supplied writer to store the child and obtain
its OID, and append the entry f"{mode} {item}\0" + 20 OID bytes. -/
def writeEntriesWith (wt : FTree → Store → Option (String × Store)) :
    List (List Nat × FTree) → Store → Option (List Nat × Store)
  | [], store => some ([], store)
  | (name, t) :: rest, store =>
    if name = strBytes ".git" then writeEntriesWith wt rest store
    else
      match wt t store with
      | none => none
      | some (sha, store1) =>
        match writeEntriesWith wt rest store1 with
        | none => none
        | some (es, store2) =>
          some ((strBytes (modeOf t) ++ 32 :: (name ++ 0 :: shaBytes20 sha)) ++ es,
            store2)

/-- src/main.py write_tree: a file is stored through create_object as a
blob; a directory walks its children sorted by sortKey, then writes the
framed tree object itself, compressed with zlib.compress(tree_content) —
the default level (-1), not Z_BEST_SPEED.  The recursion is bounded by the
directory depth (the fuel); the 0-fuel dir case is unreachable for any
fuel at least the tree's depth. -/
def write_tree (sha1Hex : List Nat → String)
    (compress : Int → List Nat → List Nat) :
    Nat → FTree → Store → Option (String × Store)
  | _, FTree.file data, store =>
    some (create_object sha1Hex compress "blob" data store)
  | 0, FTree.dir _, _ => none
  | fuel + 1, FTree.dir children, store =>
    match writeEntriesWith (write_tree sha1Hex compress fuel)
        (sortChildren children) store with
    | none => none
    | some (entries, store1) =>
      some (sha1Hex (treeContent entries),
        updateStore store1 (sha1Hex (treeContent entries))
          (compress (-1) (treeContent entries)))

theorem pyLe_total : ∀ a b : List Nat, pyLe a b = true ∨ pyLe b a = true := by
  intro a
  induction a with
  | nil => intro b; left; rfl
  | cons x xs ih =>
    intro b
    cases b with
    | nil => right; rfl
    | cons y ys =>
      rcases lt_trichotomy x y with hxy | hxy | hxy
      · left; simp [pyLe, hxy]
      · subst hxy
        rcases ih ys with h | h
        · left; simpa [pyLe] using h
        · right; simpa [pyLe] using h
      · right; simp [pyLe, hxy]

theorem pyLe_trans : ∀ a b c : List Nat, pyLe a b = true → pyLe b c = true →
    pyLe a c = true := by
  intro a
  induction a with
  | nil => intro b c _ _; rfl
  | cons x xs ih =>
    intro b c hab hbc
    cases b with
    | nil => simp [pyLe] at hab
    | cons y ys =>
      cases c with
      | nil => simp [pyLe] at hbc
      | cons z zs =>
        simp only [pyLe] at hab hbc ⊢
        rcases lt_trichotomy x y with hxy | hxy | hxy
        · rcases lt_trichotomy y z with hyz | hyz | hyz
          · simp [show x < z by omega]
          · subst hyz; simp [hxy]
          · exfalso; revert hbc; simp [show ¬ y < z by omega, hyz]
        · subst hxy
          rcases lt_trichotomy x z with hxz | hxz | hxz
          · simp [hxz]
          · subst hxz
            simp only [lt_irrefl, if_false] at hab hbc ⊢
            exact ih _ _ hab hbc
          · exfalso; revert hbc; simp [show ¬ x < z by omega, hxz]
        · exfalso; revert hab; simp [show ¬ x < y by omega, hxy]

/-! ### C3: tree entry ordering -/

/-- C3: the children write_tree iterates over (and hence the emitted tree
entries) are in ascending lexicographic byte order of the sort key — the
name for a file, the name with a trailing slash for a directory; in
particular file foo sorts before directory foo-bar, and file foo-bar sorts
before directory foo. -/
theorem write_tree_entry_order (cs : List (List Nat × FTree)) :
    List.Sorted (fun u v => pyLe (sortKey u) (sortKey v) = true)
      (sortChildren cs) ∧
    sortChildren [(strBytes "foo-bar", FTree.dir []), (strBytes "foo", FTree.file [])] =
      [(strBytes "foo", FTree.file []), (strBytes "foo-bar", FTree.dir [])] ∧
    sortChildren [(strBytes "foo", FTree.dir []), (strBytes "foo-bar", FTree.file [])] =
      [(strBytes "foo-bar", FTree.file []), (strBytes "foo", FTree.dir [])] := by
  refine ⟨?_, rfl, rfl⟩
  haveI : IsTotal (List Nat × FTree)
      (fun u v => pyLe (sortKey u) (sortKey v) = true) :=
    ⟨fun u v => pyLe_total (sortKey u) (sortKey v)⟩
  haveI : IsTrans (List Nat × FTree)
      (fun u v => pyLe (sortKey u) (sortKey v) = true) :=
    ⟨fun u v w => pyLe_trans (sortKey u) (sortKey v) (sortKey w)⟩
  exact List.sorted_insertionSort _ cs

/-! ### C9: compression levels of loose-object writes -/

/-- C9 counterexample: with a compressor that tags level 1 output with a
leading 0 and any other level with a leading 1, the tree object written by
write_tree's directory case is stored as the default-level output
1 :: treeContent [], which differs from the maximum-speed output — so not
every loose-object write uses the maximum-speed level. -/
theorem write_tree_not_best_speed :
    (write_tree (fun _ => "h")
        (fun lvl data => if lvl = 1 then 0 :: data else 1 :: data)
        1 (FTree.dir []) (fun _ => none)).map (fun r => r.2 r.1) =
      some (some (1 :: treeContent [])) ∧
    (1 :: treeContent []) ≠ (0 :: treeContent []) := by
  constructor <;> decide

/-- C9 amended: create_object compresses its writes at Z_BEST_SPEED
(level 1), but the tree object written directly by write_tree's directory
case uses zlib.compress(tree_content) with the level argument omitted —
the default level (-1), not maximum speed. -/
theorem loose_object_write_levels (sha1Hex : List Nat → String)
    (compress : Int → List Nat → List Nat) (fuel : Nat)
    (children : List (List Nat × FTree)) (store : Store)
    (entries : List Nat) (store1 : Store)
    (h : writeEntriesWith (write_tree sha1Hex compress fuel)
        (sortChildren children) store = some (entries, store1)) :
    write_tree sha1Hex compress (fuel + 1) (FTree.dir children) store =
      some (sha1Hex (treeContent entries),
        updateStore store1 (sha1Hex (treeContent entries))
          (compress (-1) (treeContent entries))) ∧
    ∀ category data store2,
      (create_object sha1Hex compress category data store2).2
        (sha1Hex (frame category data)) =
      some (compress 1 (frame category data)) := by
  constructor
  · rw [write_tree, h]
  · intro category data store2
    simp [create_object, updateStore_self]

/-- Witness for C9's amended theorem: the empty directory's tree is stored
at the default level (tag 1), a blob through create_object at level 1
(tag 0). -/
theorem loose_object_write_levels_witness :
    write_tree (fun _ => "h")
        (fun lvl data => if lvl = 1 then 0 :: data else 1 :: data)
        1 (FTree.dir []) (fun _ => none) =
      some ("h", updateStore (fun _ => none) "h" (1 :: treeContent [])) ∧
    (create_object (fun _ => "h")
        (fun lvl data => if lvl = 1 then 0 :: data else 1 :: data)
        "blob" [65] (fun _ => none)).2 "h" = some (0 :: frame "blob" [65]) := by
  have h := loose_object_write_levels (fun _ => "h")
    (fun lvl data => if lvl = 1 then 0 :: data else 1 :: data) 0 []
    (fun _ => none) [] (fun _ => none) rfl
  exact ⟨h.1, h.2 "blob" [65] (fun _ => none)⟩

/-! ### Checkout renderer (src/main.py render_tree) -/

/-- A node of the working-tree filesystem. -/
inductive Node
  | dir
  | file (content : List Nat)
  deriving DecidableEq

/-- A working-tree path: components are the raw name bytes of tree entries
(name.decode() is byte-transparent on the ASCII names used here). -/
abbrev RPath : Type := List (List Nat)

/-- The working tree, as a partial map from paths to nodes. -/
abbrev FS : Type := RPath → Option Node

def fsUpdate (fs : FS) (p : RPath) (n : Node) : FS :=
  fun q => if q = p then some n else fs q

/-- The nonempty initial segments of a path, shortest first: the chain of
directories Path.mkdir(parents=True) walks. -/
def initSegs : RPath → List RPath
  | [] => []
  | c :: rest => [c] :: (initSegs rest).map (c :: ·)

/-- One directory creation step: an existing directory is accepted
(exist_ok=True), an existing file raises (none), a missing path becomes a
directory. -/
def mkdirOne (fs : FS) (p : RPath) : Option FS :=
  match fs p with
  | some Node.dir => some fs
  | some (Node.file _) => none
  | none => some (fsUpdate fs p Node.dir)

def mkdirSegs (fs : FS) : List RPath → Option FS
  | [] => some fs
  | q :: qs =>
    match mkdirOne fs q with
    | none => none
    | some fs1 => mkdirSegs fs1 qs

/-- directory.mkdir(parents=True, exist_ok=True). -/
def mkdirP (fs : FS) (p : RPath) : Option FS :=
  mkdirSegs fs (initSegs p)

/-- Path.write_bytes: overwrites an existing file, fails (IsADirectoryError)
on an existing directory. -/
def writeFile (fs : FS) (p : RPath) (content : List Nat) : Option FS :=
  match fs p with
  | some Node.dir => none
  | _ => some (fsUpdate fs p (Node.file content))

/-- One lowercase hexadecimal digit. -/
def hexDigit (n : Nat) : Char :=
  if n < 10 then Char.ofNat (48 + n) else Char.ofNat (87 + n)

/-- Models bytes.hex(): two lowercase hex digits per byte. -/
def bytesHex (bs : List Nat) : String :=
  String.mk (bs.foldr (fun b acc => hexDigit (b / 16) :: hexDigit (b % 16) :: acc) [])

/-- The while loop of render_tree over a tree payload: split off
"mode SP name NUL", take 20 OID bytes, recurse via the supplied renderer
for mode 40000, read the blob and write the file for mode 100644, raise
(none) otherwise.  Structured on an iteration bound like the delta loop:
each iteration consumes at least one byte, so the payload length bounds
the iteration count. -/
def renderEntries (rt : RPath → String → FS → Option FS)
    (decompress : List Nat → List Nat) (store : Store) (dirP : RPath) :
    Nat → List Nat → FS → Option FS
  | _, [], fs => some fs
  | 0, _ :: _, _ => none
  | fuel + 1, b :: td, fs =>
    match splitFirst 32 (b :: td) with
    | none => none
    | some (mode, rest1) =>
      match splitFirst 0 rest1 with
      | none => none
      | some (name, rest2) =>
        if mode = strBytes "40000" then
          match rt (dirP ++ [name]) (bytesHex (rest2.take 20)) fs with
          | none => none
          | some fs1 =>
            renderEntries rt decompress store dirP fuel (rest2.drop 20) fs1
        else if mode = strBytes "100644" then
          match read_object decompress (bytesHex (rest2.take 20)) store with
          | none => none
          | some q =>
            match writeFile fs (dirP ++ [name]) q.2 with
            | none => none
            | some fs1 =>
              renderEntries rt decompress store dirP fuel (rest2.drop 20) fs1
        else none

/-- src/main.py render_tree: create the directory (parents, exist_ok),
read the tree object, render its entries.  The recursion is bounded by the
tree depth (the fuel). -/
def render_tree (decompress : List Nat → List Nat) (store : Store) :
    Nat → RPath → String → FS → Option FS
  | 0, _, _, _ => none
  | fuel + 1, directory, sha, fs =>
    match mkdirP fs directory with
    | none => none
    | some fs1 =>
      match read_object decompress sha store with
      | none => none
      | some q =>
        renderEntries (render_tree decompress store fuel) decompress store
          directory q.2.length q.2 fs1

/-- The paths touched by a successful run of renderEntries: the file paths
written and, via the renderer, the directories created; mirrors
renderEntries but does not depend on the working tree. -/
def touchedEntries (rt : RPath → String → Option (List RPath))
    (decompress : List Nat → List Nat) (store : Store) (dirP : RPath) :
    Nat → List Nat → Option (List RPath)
  | _, [] => some []
  | 0, _ :: _ => none
  | fuel + 1, b :: td =>
    match splitFirst 32 (b :: td) with
    | none => none
    | some (mode, rest1) =>
      match splitFirst 0 rest1 with
      | none => none
      | some (name, rest2) =>
        if mode = strBytes "40000" then
          match rt (dirP ++ [name]) (bytesHex (rest2.take 20)) with
          | none => none
          | some ps1 =>
            (touchedEntries rt decompress store dirP fuel (rest2.drop 20)).map
              (ps1 ++ ·)
        else if mode = strBytes "100644" then
          match read_object decompress (bytesHex (rest2.take 20)) store with
          | none => none
          | some _ =>
            (touchedEntries rt decompress store dirP fuel (rest2.drop 20)).map
              ((dirP ++ [name]) :: ·)
        else none

/-- The paths touched by a successful run of render_tree: the directory
chain of the target plus the paths its entries touch. -/
def renderTouched (decompress : List Nat → List Nat) (store : Store) :
    Nat → RPath → String → Option (List RPath)
  | 0, _, _ => none
  | fuel + 1, directory, sha =>
    match read_object decompress sha store with
    | none => none
    | some q =>
      (touchedEntries (renderTouched decompress store fuel) decompress store
          directory q.2.length q.2).map (initSegs directory ++ ·)

/-! ### Frame lemmas for the renderer -/

theorem mkdirOne_frame {fs fs1 : FS} {q : RPath} (h : mkdirOne fs q = some fs1) :
    ∀ p, p ≠ q → fs1 p = fs p := by
  intro p hp
  unfold mkdirOne at h
  cases hfq : fs q with
  | none =>
    rw [hfq] at h
    injection h with h
    rw [← h]
    simp [fsUpdate, hp]
  | some n =>
    cases n with
    | dir =>
      rw [hfq] at h
      injection h with h
      rw [← h]
    | file c => rw [hfq] at h; exact Option.noConfusion h

theorem mkdirSegs_frame : ∀ (qs : List RPath) (fs fs1 : FS),
    mkdirSegs fs qs = some fs1 → ∀ p, p ∉ qs → fs1 p = fs p := by
  intro qs
  induction qs with
  | nil =>
    intro fs fs1 h p _
    injection h with h
    rw [← h]
  | cons q qs ih =>
    intro fs fs1 h p hp
    rw [mkdirSegs] at h
    have hpq : p ≠ q ∧ p ∉ qs := by
      rw [List.mem_cons] at hp; exact ⟨fun e => hp (Or.inl e), fun m => hp (Or.inr m)⟩
    cases hm : mkdirOne fs q with
    | none => rw [hm] at h; exact Option.noConfusion h
    | some fsa =>
      rw [hm] at h
      dsimp only at h
      rw [ih fsa fs1 h p hpq.2, mkdirOne_frame hm p hpq.1]

theorem mkdirSegs_all_dirs : ∀ (qs : List RPath) (fs : FS),
    (∀ q ∈ qs, fs q = some Node.dir) → mkdirSegs fs qs = some fs := by
  intro qs
  induction qs with
  | nil => intro fs _; rfl
  | cons q qs ih =>
    intro fs h
    rw [mkdirSegs, mkdirOne, h q (by simp)]
    exact ih fs (fun r hr => h r (List.mem_cons_of_mem _ hr))

theorem writeFile_frame {fs fs1 : FS} {q : RPath} {c : List Nat}
    (h : writeFile fs q c = some fs1) : ∀ p, p ≠ q → fs1 p = fs p := by
  intro p hp
  unfold writeFile at h
  cases hfq : fs q with
  | none =>
    rw [hfq] at h
    injection h with h
    rw [← h]
    simp [fsUpdate, hp]
  | some n =>
    cases n with
    | dir => rw [hfq] at h; exact Option.noConfusion h
    | file old =>
      rw [hfq] at h
      injection h with h
      rw [← h]
      simp [fsUpdate, hp]

theorem writeFile_overwrites (fs : FS) (p : RPath) (c old : List Nat)
    (h : fs p = some (Node.file old)) :
    writeFile fs p c = some (fsUpdate fs p (Node.file c)) := by
  unfold writeFile
  rw [h]

theorem renderEntries_frame (decompress : List Nat → List Nat) (store : Store)
    (fuel : Nat)
    (Hrt : ∀ dirP sha (fs fs' : FS) ps,
      render_tree decompress store fuel dirP sha fs = some fs' →
      renderTouched decompress store fuel dirP sha = some ps →
      ∀ p, p ∉ ps → fs' p = fs p) :
    ∀ (efuel : Nat) (td : List Nat) (dirP : RPath) (fs fs' : FS) (ps : List RPath),
      renderEntries (render_tree decompress store fuel) decompress store dirP
        efuel td fs = some fs' →
      touchedEntries (renderTouched decompress store fuel) decompress store dirP
        efuel td = some ps →
      ∀ p, p ∉ ps → fs' p = fs p := by
  intro efuel
  induction efuel with
  | zero =>
    intro td dirP fs fs' ps hr ht p hp
    cases td with
    | nil => injection hr with hr; rw [← hr]
    | cons b td => exact Option.noConfusion hr
  | succ efuel ih =>
    intro td dirP fs fs' ps hr ht p hp
    cases td with
    | nil => injection hr with hr; rw [← hr]
    | cons b td =>
      rw [renderEntries] at hr
      rw [touchedEntries] at ht
      cases hs1 : splitFirst 32 (b :: td) with
      | none => rw [hs1] at hr; exact Option.noConfusion hr
      | some m1 =>
        obtain ⟨mode, rest1⟩ := m1
        rw [hs1] at hr ht
        dsimp only at hr ht
        cases hs2 : splitFirst 0 rest1 with
        | none => rw [hs2] at hr; exact Option.noConfusion hr
        | some m2 =>
          obtain ⟨name, rest2⟩ := m2
          rw [hs2] at hr ht
          dsimp only at hr ht
          by_cases hm40 : mode = strBytes "40000"
          · rw [if_pos hm40] at hr ht
            cases hrt1 : render_tree decompress store fuel (dirP ++ [name])
                (bytesHex (rest2.take 20)) fs with
            | none => rw [hrt1] at hr; exact Option.noConfusion hr
            | some fsa =>
              rw [hrt1] at hr
              dsimp only at hr
              cases hto1 : renderTouched decompress store fuel (dirP ++ [name])
                  (bytesHex (rest2.take 20)) with
              | none => rw [hto1] at ht; exact Option.noConfusion ht
              | some psa =>
                rw [hto1] at ht
                dsimp only at ht
                cases hto2 : touchedEntries (renderTouched decompress store fuel)
                    decompress store dirP efuel (rest2.drop 20) with
                | none => rw [hto2] at ht; exact Option.noConfusion ht
                | some psb =>
                  rw [hto2] at ht
                  injection ht with ht
                  rw [← ht] at hp
                  rw [List.mem_append] at hp
                  have h1 : fsa p = fs p :=
                    Hrt _ _ _ _ _ hrt1 hto1 p (fun m => hp (Or.inl m))
                  have h2 : fs' p = fsa p :=
                    ih (rest2.drop 20) dirP fsa fs' psb hr hto2 p
                      (fun m => hp (Or.inr m))
                  rw [h2, h1]
          · rw [if_neg hm40] at hr ht
            by_cases hm644 : mode = strBytes "100644"
            · rw [if_pos hm644] at hr ht
              cases hro : read_object decompress (bytesHex (rest2.take 20)) store with
              | none => rw [hro] at hr; exact Option.noConfusion hr
              | some q =>
                rw [hro] at hr ht
                dsimp only at hr ht
                cases hw : writeFile fs (dirP ++ [name]) q.2 with
                | none => rw [hw] at hr; exact Option.noConfusion hr
                | some fsa =>
                  rw [hw] at hr
                  dsimp only at hr
                  cases hto2 : touchedEntries (renderTouched decompress store fuel)
                      decompress store dirP efuel (rest2.drop 20) with
                  | none => rw [hto2] at ht; exact Option.noConfusion ht
                  | some psb =>
                    rw [hto2] at ht
                    injection ht with ht
                    rw [← ht] at hp
                    rw [List.mem_cons] at hp
                    have h1 : fsa p = fs p :=
                      writeFile_frame hw p (fun e => hp (Or.inl e))
                    have h2 : fs' p = fsa p :=
                      ih (rest2.drop 20) dirP fsa fs' psb hr hto2 p
                        (fun m => hp (Or.inr m))
                    rw [h2, h1]
            · rw [if_neg hm644] at hr
              exact Option.noConfusion hr

theorem render_tree_frame (decompress : List Nat → List Nat) (store : Store) :
    ∀ (fuel : Nat) (dirP : RPath) (sha : String) (fs fs' : FS) (ps : List RPath),
      render_tree decompress store fuel dirP sha fs = some fs' →
      renderTouched decompress store fuel dirP sha = some ps →
      ∀ p, p ∉ ps → fs' p = fs p := by
  intro fuel
  induction fuel with
  | zero => intro dirP sha fs fs' ps hr _ _ _; exact Option.noConfusion hr
  | succ fuel ih =>
    intro dirP sha fs fs' ps hr ht p hp
    rw [render_tree] at hr
    rw [renderTouched] at ht
    cases hmk : mkdirP fs dirP with
    | none => rw [hmk] at hr; exact Option.noConfusion hr
    | some fs1 =>
      rw [hmk] at hr
      dsimp only at hr
      cases hro : read_object decompress sha store with
      | none => rw [hro] at hr; exact Option.noConfusion hr
      | some q =>
        rw [hro] at hr ht
        dsimp only at hr ht
        cases hte : touchedEntries (renderTouched decompress store fuel)
            decompress store dirP q.2.length q.2 with
        | none => rw [hte] at ht; exact Option.noConfusion ht
        | some psb =>
          rw [hte] at ht
          injection ht with ht
          rw [← ht] at hp
          rw [List.mem_append] at hp
          have h1 : fs1 p = fs p :=
            mkdirSegs_frame (initSegs dirP) fs fs1 hmk p (fun m => hp (Or.inl m))
          have h2 : fs' p = fs1 p :=
            renderEntries_frame decompress store fuel ih q.2.length q.2 dirP
              fs1 fs' psb hr hte p (fun m => hp (Or.inr m))
          rw [h2, h1]

/-! ### C10: checkout over a pre-existing working tree -/

/-- C10: render_tree succeeds on pre-existing directories rather than
failing — mkdir with exist_ok accepts an existing directory chain and
leaves the tree unchanged; a pre-existing file whose path matches a tree
entry is overwritten by write_bytes; and any path outside the touched set
(the created directory chains and the file paths named by tree entries)
is left exactly as it was. -/
theorem render_tree_pre_existing :
    (∀ (fs : FS) (p : RPath), (∀ q ∈ initSegs p, fs q = some Node.dir) →
      mkdirP fs p = some fs) ∧
    (∀ (fs : FS) (p : RPath) (c old : List Nat), fs p = some (Node.file old) →
      writeFile fs p c = some (fsUpdate fs p (Node.file c))) ∧
    (∀ (decompress : List Nat → List Nat) (store : Store) (fuel : Nat)
      (dirP : RPath) (sha : String) (fs fs' : FS) (ps : List RPath),
      render_tree decompress store fuel dirP sha fs = some fs' →
      renderTouched decompress store fuel dirP sha = some ps →
      ∀ p, p ∉ ps → fs' p = fs p) :=
  ⟨fun fs p h => mkdirSegs_all_dirs (initSegs p) fs h,
   writeFile_overwrites,
   fun decompress store fuel dirP sha fs fs' ps =>
     render_tree_frame decompress store fuel dirP sha fs fs' ps⟩

/-- A demonstration store: tree object t with a single file entry a whose
blob lives at the all-zero OID. -/
def demoStore : Store :=
  fun k =>
    if k = "t" then
      some (strBytes "tree 29" ++ 0 ::
        (strBytes "100644" ++ 32 :: ([97] ++ 0 :: List.replicate 20 0)))
    else if k = bytesHex (List.replicate 20 0) then
      some (strBytes "blob 2" ++ 0 :: [104, 105])
    else none

/-- A demonstration working tree: the checkout target d already exists as a
directory, and a stray file j not named by any tree entry sits beside it. -/
def demoFS : FS :=
  fun p =>
    if p = [[100]] then some Node.dir
    else if p = [[106]] then some (Node.file [1]) else none

/-- Witness for C10: the pre-existing target directory is accepted
unchanged; a pre-existing file is overwritten; and after rendering tree t
into the pre-existing directory d, the stray file j is untouched. -/
theorem render_tree_pre_existing_witness :
    mkdirP demoFS [[100]] = some demoFS ∧
    writeFile demoFS [[106]] [9] = some (fsUpdate demoFS [[106]] (Node.file [9])) ∧
    (fsUpdate demoFS [[100], [97]] (Node.file [104, 105])) [[106]] =
      demoFS [[106]] := by
  refine ⟨render_tree_pre_existing.1 demoFS [[100]] (by decide),
    render_tree_pre_existing.2.1 demoFS [[106]] [9] [1] rfl, ?_⟩
  exact render_tree_pre_existing.2.2 id demoStore 2 [[100]] "t" demoFS
    (fsUpdate demoFS [[100], [97]] (Node.file [104, 105]))
    [[[100]], [[100], [97]]] rfl rfl [[106]] (by decide)

end MyGit
